import Mathlib

/-!
Verification development for the clamav-exporter repository.

The repository probes a ClamAV daemon over two protocols:
 * a line-oriented command protocol (vendored package `clamd`:
   `clamd.go`, the response parser with regex `resRGXRaw`, the
   connection helpers `Command` / `Chunk` / `EOF` / `Responses`, and the
   high-level entry points `ScanBytes`, `Stats`, `InStream`);
 * an ICAP-like frame protocol (`cicap.go`, `parseIcapResult`);
plus the Prometheus orchestration layer (`clamd.go` of package main:
`collectVersion`, `collectStats`, `collectEicar`, `Collect`).

Strings from the Go side are modelled as `List Char`; Go's regexes are
embedded as explicit deterministic/backtracking matchers that follow the
leftmost-first (Perl-like) submatch semantics of Go's `regexp` package.
Every embedded definition is translated from the repository's source.
-/

namespace Clamd

/-- Embeds the Go struct `Result` of the vendored clamd package
(`Result{raw, Description, Path, Hash, Size, Status}`). -/
structure Result where
  raw : List Char
  Description : List Char
  Path : List Char
  Hash : List Char
  Size : Nat
  Status : List Char
  deriving Repr, DecidableEq

/-- Constant `RES_OK`. -/
def RES_OK : List Char := "OK".toList
/-- Constant `RES_FOUND`. -/
def RES_FOUND : List Char := "FOUND".toList
/-- Constant `RES_ERROR`. -/
def RES_ERROR : List Char := "ERROR".toList
/-- Constant `RES_PARSE_ERROR`. -/
def RES_PARSE_ERROR : List Char := "PARSE ERROR".toList

/-!
## Embedding of the compiled regex `resRGX`

Source (clamd package):
`^(?P<path>[^:]+): ((?P<desc>[^:]+)(\((?P<vhash>([^:]+)):(?P<vsize>\d+)\))? )?(?P<status>FOUND|ERROR|OK)$`

Go's `regexp` uses leftmost-first (Perl-like) submatch semantics with
greedy quantifiers.  For this particular expression the search is fully
determined except for the greedy `[^:]+` of the `desc` group, which
backtracks from its longest candidate down to length 1:

 * `path` is `[^:]+` followed by the literal `: `.  Since the quantified
   class excludes `':'` and the following literal requires `':'`, the
   only candidate is the maximal colon-free prefix.
 * inside the optional group, `desc` is `[^:]+`; all shorter prefixes of
   the maximal colon-free run are tried in decreasing order;
 * the parenthesised group `\((vhash):(vsize)\)` is forced: `vhash` is
   `[^:]+` followed by `':'` (maximal colon-free run), `vsize` is `\d+`
   followed by `\)` (maximal digit run, since a shorter run would put a
   digit where the closing paren is required);
 * the alternation `FOUND|ERROR|OK` is followed by `$`, so at a fixed
   position at most one branch can succeed (the remaining text must be
   exactly one of the three literals).
-/

/-- Captures of the inner optional description group:
description text, optional `(vhash, vsize)` pair. -/
structure TailCaps where
  desc : List Char
  paren : Option (List Char × List Char)
  status : List Char
  deriving Repr, DecidableEq

/-- Captures of a successful match of `resRGX`. -/
structure ResCaps where
  path : List Char
  grp2 : Option (List Char × Option (List Char × List Char))
  status : List Char
  deriving Repr, DecidableEq

/-- Group `(?P<path>[^:]+)` and the literal `: ` — maximal colon-free nonempty run followed by
the literal `": "`; returns the capture and the remaining text. -/
def parsePath (l : List Char) : Option (List Char × List Char) :=
  let p := l.takeWhile (fun c => c ≠ ':')
  if p.isEmpty then none else
    match l.dropWhile (fun c => c ≠ ':') with
    | c1 :: c2 :: rest => if c1 = ':' ∧ c2 = ' ' then some (p, rest) else none
    | _ => none

/-- Group `(?P<status>FOUND|ERROR|OK)$` at the current position: the remaining
text must be exactly one of the three literals. -/
def statusOf (t : List Char) : Option (List Char) :=
  if t = RES_FOUND then some t
  else if t = RES_ERROR then some t
  else if t = RES_OK then some t
  else none

/-- Group `\((?P<vhash>([^:]+)):(?P<vsize>\d+)\)` at the current position;
returns (vhash capture, vsize capture, remaining text). -/
def parseParen (rem : List Char) : Option (List Char × List Char × List Char) :=
  match rem with
  | c0 :: r =>
    if c0 = '(' then
      let h := r.takeWhile (fun c => c ≠ ':')
      if h.isEmpty then none else
        match r.dropWhile (fun c => c ≠ ':') with
        | c1 :: r2 =>
          if c1 = ':' then
            let ds := r2.takeWhile Char.isDigit
            if ds.isEmpty then none else
              match r2.dropWhile Char.isDigit with
              | c2 :: r3 => if c2 = ')' then some (h, ds, r3) else none
              | [] => none
          else none
        | [] => none
    else none
  | [] => none

/-- The literal space that closes the optional group, followed by the
status alternation and the end anchor. -/
def contSp (rem : List Char) : Option (List Char) :=
  match rem with
  | c :: t => if c = ' ' then statusOf t else none
  | [] => none

/-- The parenthesised group at the end of a `desc` candidate of length
`k1`, followed by the closing space, status and end anchor. -/
def withParenOpt (rest : List Char) (k1 : Nat) : Option TailCaps :=
  match parseParen (rest.drop k1) with
  | some (h, ds, r3) => (contSp r3).map fun st => ⟨rest.take k1, some (h, ds), st⟩
  | none => none

/-- One `desc` candidate of length `k1`: first the parenthesised group
(greedy `?`), then its absence. -/
def tryDescStep (rest : List Char) (k1 : Nat) : Option TailCaps :=
  (withParenOpt rest k1).orElse fun _ =>
    (contSp (rest.drop k1)).map fun st => ⟨rest.take k1, none, st⟩

/-- Backtracking over the greedy `desc` candidate lengths `k, k-1, …, 1`
(leftmost-first order). -/
def tryDesc (rest : List Char) : Nat → Option TailCaps
  | 0 => none
  | k + 1 => (tryDescStep rest (k + 1)).orElse fun _ => tryDesc rest k

/-- Embeds `resRGX.FindStringSubmatch`: the anchored regex matches the
whole line or not at all; the optional group is tried before its
absence (greedy `?`). -/
def resMatch (l : List Char) : Option ResCaps :=
  match parsePath l with
  | none => none
  | some (p, rest) =>
    match tryDesc rest (rest.takeWhile (fun c => c ≠ ':')).length with
    | some t => some ⟨p, some (t.desc, t.paren), t.status⟩
    | none => (statusOf rest).map fun st => ⟨p, none, st⟩

/-- Embeds `(*Result).parse`.  On no match the result carries the
diagnostic description and `RES_PARSE_ERROR`.  On a match the switch on
`resRGX.SubexpNames()` assigns `Path`, `Description` and `Status`; its
cases `"virhash"` and `"virsize"` never fire because the regex names
these groups `vhash` and `vsize`, so `Hash` and `Size` keep their zero
values.  The `default` branch of the inner status switch is unreachable
since the alternation only produces `FOUND`, `ERROR` or `OK`. -/
def Result.parse (line : List Char) : Result :=
  match resMatch line with
  | none =>
    { raw := line, Description := "Regex had no matches".toList,
      Path := [], Hash := [], Size := 0, Status := RES_PARSE_ERROR }
  | some caps =>
    { raw := line,
      Description := (match caps.grp2 with
        | some (d, _) => d
        | none => []),
      Path := caps.path, Hash := [], Size := 0, Status := caps.status }

/-- The final space-delimited token of a line: this is the text sitting
in the status position of the spec's response grammar. -/
def statusToken (l : List Char) : List Char :=
  (l.reverse.takeWhile (fun c => c ≠ ' ')).reverse

/-- Newline-terminated wire lines: each line of `ls`, followed by the
`'\n'` terminator, concatenated in order. -/
def joinLines : List (List Char) → List Char
  | [] => []
  | l :: ls => l ++ '\n' :: joinLines ls

/-!
## Connection-level operations of the vendored clamd package
-/

/-- Minimal model of `fmt.Fprintf`'s format interpretation for the
format strings used by the package: every `%s` verb is replaced by the
(single) string argument, all other bytes are copied verbatim. -/
def fprintf : List Char → List Char → List Char
  | [], _ => []
  | '%' :: 's' :: rest, arg => arg ++ fprintf rest arg
  | c :: rest, arg => c :: fprintf rest arg

/-- Embeds `(*clamdConn).Command`: the bytes written to the connection
are `fmt.Fprintf(conn, "n%s\n", cmd)`. -/
def commandBytes (cmd : List Char) : List Char :=
  fprintf "n%s\n".toList cmd

/-- Constant `bEOF`, the zero-length terminator chunk. -/
def bEOF : List Nat := [0, 0, 0, 0]

/-- Embeds the length-prefix computation of `(*clamdConn).Chunk`:
`[byte(dlen >> 24), byte(dlen >> 16), byte(dlen >> 8), byte(dlen >> 0)]`
(Go's `byte(x)` truncates modulo 256). -/
def chunkLenBytes (dlen : Nat) : List Nat :=
  [dlen >>> 24 % 256, dlen >>> 16 % 256, dlen >>> 8 % 256, dlen >>> 0 % 256]

/-- Embeds `(*clamdConn).Chunk`: the two writes it performs, in order
(length prefix, then the raw data). -/
def chunkWrites (data : List Nat) : List (List Nat) :=
  [chunkLenBytes data.length, data]

/-- Embeds `(*ClamD).ScanBytes` up to the network: the size check runs
before any connection is opened; on success (all I/O assumed to
succeed) the connection sees, in order, the INSTREAM command line, the
chunk length prefix, the chunk data and the zero-length terminator.
The first component lists the byte sequences written to the connection,
the second is the error (`fmt.Errorf("chunk size < %d bytes", 1024)`). -/
def scanBytesRun (b : List Nat) : List (List Nat) × Option (List Char) :=
  if b.length > 1024 then
    ([], some "chunk size < 1024 bytes".toList)
  else
    ([(commandBytes "INSTREAM".toList).map Char.toNat,
      chunkLenBytes b.length, b, bEOF], none)

/-- Embeds the `InStream` struct (field `chSize`). -/
structure InStream where
  chSize : Nat
  deriving Repr, DecidableEq

/-- Embeds `(*ClamD).NewInStream`: the stream is built with `chSize: 1024`. -/
def NewInStream : InStream := ⟨1024⟩

/-- Embeds `(*InStream).Write`: error and connection writes.  A payload
larger than `chSize` fails with the sizing error and nothing reaches
`Chunk`; otherwise the chunk writes happen. -/
def InStream.Write (s : InStream) (b : List Nat) :
    Option (List Char) × List (List Nat) :=
  if b.length > s.chSize then
    (some ("chunk size < ".toList ++ (toString s.chSize).toList ++ " bytes".toList), [])
  else
    (none, chunkWrites b)

/-- Cutset of `strings.TrimRight(line, " \t\r\n")`. -/
def trimCut (c : Char) : Bool :=
  c = ' ' || c = '\t' || c = '\r' || c = '\n'

/-- Embeds `strings.TrimRight(line, " \t\r\n")`. -/
def trimRight (l : List Char) : List Char :=
  (l.reverse.dropWhile trimCut).reverse

/-- Embeds `(*clamdConn).Responses`: `bufio.ReadString('\n')` yields
newline-terminated lines until it fails; a read that does not find a
`'\n'` (end of stream, possibly with leftover bytes) stops the loop
without producing a result.  Each line (including its `'\n'`) is
right-trimmed and parsed. -/
def responses (s : List Char) : List Clamd.Result :=
  match h : s.dropWhile (fun c => c ≠ '\n') with
  | '\n' :: rest =>
    Result.parse (trimRight (s.takeWhile (fun c => c ≠ '\n') ++ ['\n'])) ::
      responses rest
  | _ => []
termination_by s.length
decreasing_by
  have hle : (s.dropWhile (fun c => decide (c ≠ '\n'))).length ≤ s.length :=
    (List.dropWhile_sublist _).length_le
  rw [h] at hle
  simp at hle ⊢
  omega

/-!
## `(*ClamD).Stats` response folding
-/

/-- Embeds the Go struct `ClamDStats` (raw text sections). -/
structure ClamDStats where
  Pools : List Char
  State : List Char
  Threads : List Char
  Memstats : List Char
  Queue : List Char
  deriving Repr, DecidableEq

/-- Go string slicing `s[n:]`: defined when `n ≤ len(s)`, a runtime
panic (modelled as `none`) otherwise. -/
def sliceFrom (l : List Char) (n : Nat) : Option (List Char) :=
  if n ≤ l.length then some (l.drop n) else none

/-- One iteration of the `switch` in `(*ClamD).Stats` (cases in source
order; `END` and the default case assign nothing). -/
def statsStep (st : ClamDStats) (raw : List Char) : Option ClamDStats :=
  if "POOLS".toList.isPrefixOf raw then
    (sliceFrom raw 7).map fun v => { st with Pools := v }
  else if "STATE".toList.isPrefixOf raw then
    (sliceFrom raw 7).map fun v => { st with State := v }
  else if "THREADS".toList.isPrefixOf raw then
    (sliceFrom raw 9).map fun v => { st with Threads := v }
  else if "QUEUE".toList.isPrefixOf raw then
    (sliceFrom raw 7).map fun v => { st with Queue := v }
  else if "MEMSTATS".toList.isPrefixOf raw then
    (sliceFrom raw 10).map fun v => { st with Memstats := v }
  else some st

/-- The zero value `stats := &ClamDStats{}`. -/
def statsInit : ClamDStats := ⟨[], [], [], [], []⟩

/-- Embeds the folding loop of `(*ClamD).Stats` over the raw response
lines; `none` models a slicing panic. -/
def statsFold (lines : List (List Char)) : Option ClamDStats :=
  lines.foldlM statsStep statsInit

/-- A response line has well-formed length when it is at least as long
as the prefix-strip offset of the section it selects (7 for
POOLS/STATE/QUEUE, 9 for THREADS, 10 for MEMSTATS; branch order as in
the source's switch). -/
def wellFormedLen (raw : List Char) : Bool :=
  if "POOLS".toList.isPrefixOf raw then 7 ≤ raw.length
  else if "STATE".toList.isPrefixOf raw then 7 ≤ raw.length
  else if "THREADS".toList.isPrefixOf raw then 9 ≤ raw.length
  else if "QUEUE".toList.isPrefixOf raw then 7 ≤ raw.length
  else if "MEMSTATS".toList.isPrefixOf raw then 10 ≤ raw.length
  else true

end Clamd

namespace Icap

/-!
## Embedding of `parseIcapResult` (cicap.go)

`icapRespCodeRegexp        = regexp.MustCompile("ICAP/1\\.0 (\\d+)")`
`icapRespThreatFoundRegexp = regexp.MustCompile("X-Infection-Found: .*Threat=(.*);")`

Both are unanchored and searched leftmost-first over the raw response
bytes.  `.` does not match `'\n'` (Go default).
-/

/-- The literal `ICAP/1.0 ` of the response-code pattern. -/
def codeMarker : List Char := "ICAP/1.0 ".toList

/-- At a fixed position: the literal marker followed by `(\d+)` (greedy,
at least one digit; nothing follows in the pattern, so the capture is
the maximal digit run). -/
def tryCodeAt (l : List Char) : Option (List Char) :=
  if codeMarker.isPrefixOf l then
    let ds := (l.drop codeMarker.length).takeWhile Char.isDigit
    if ds.isEmpty then none else some ds
  else none

/-- Leftmost search of the response-code pattern: scan positions left to
right, at each one try the anchored pattern. -/
def findCode : List Char → Option (List Char)
  | [] => tryCodeAt []
  | c :: t => (tryCodeAt (c :: t)).orElse fun _ => findCode t

/-- The literal `X-Infection-Found: ` of the threat pattern. -/
def threatMarker : List Char := "X-Infection-Found: ".toList

/-- Within the current line (no `'\n'` may be crossed by `.*`): does
`Threat=` occur with a `';'` somewhere after it? -/
def threatThenSemi : List Char → Bool
  | [] => false
  | c :: t =>
    (if "Threat=".toList.isPrefixOf (c :: t) then
      ((c :: t).drop 7).contains ';'
    else false) || threatThenSemi t

/-- Does `X-Infection-Found: .*Threat=(.*);` match anywhere in the
response?  At each candidate position the two `.*` are confined to the
text before the next `'\n'`. -/
def infectionFound : List Char → Bool
  | [] => false
  | c :: t =>
    (if threatMarker.isPrefixOf (c :: t) then
      threatThenSemi (((c :: t).drop threatMarker.length).takeWhile
        (fun x => x ≠ '\n'))
    else false) || infectionFound t

/-- Numeric value of a digit string (`strconv.Atoi` on a `\d+` capture;
the 64-bit range clamp of `Atoi` is not modelled — irrelevant for
response codes). -/
def digitsToNat (l : List Char) : Nat :=
  l.foldl (fun a c => a * 10 + (c.toNat - '0'.toNat)) 0

/-- Embeds `parseIcapResult` (the `(code, found)` version of cicap.go):
`code` starts at the sentinel `-1` and is replaced by the first captured
number when the code pattern matches; `found` is `1` exactly when the
threat pattern matches somewhere. -/
def parseIcapResult (icapRes : List Char) : Int × Nat :=
  let code : Int :=
    match findCode icapRes with
    | some ds => (digitsToNat ds : Int)
    | none => -1
  let found : Nat := if infectionFound icapRes then 1 else 0
  (code, found)

/-- Declarative reading of the response-code pattern: the text contains
`ICAP/1.0 ` immediately followed by a digit. -/
def CodePattern (res : List Char) : Prop :=
  ∃ pre c rest, res = pre ++ codeMarker ++ c :: rest ∧ c.isDigit

/-- Declarative reading of the threat pattern: the text contains
`X-Infection-Found: `, then (without an intervening newline) `Threat=`,
then (again without a newline) a `';'`. -/
def InfectionPattern (res : List Char) : Prop :=
  ∃ pre a b post,
    res = pre ++ threatMarker ++ a ++ "Threat=".toList ++ b ++ ';' :: post ∧
      '\n' ∉ a ∧ '\n' ∉ b

end Icap

namespace Exporter

/-!
## Embedding of the exporter's clamd checker (clamd.go, package main)

Regexes, all compiled at package level:
`clamdVersionRegexp      = ^ClamAV (?P<clamav_version>.*?)/(?P<db_version>.*?)/(?P<db_date>.*?)$`
`clamdStatsQueueRegexp   = ^(\d+)\s+item.*$`
`clamdStatsThreadsRegexp = ^live\s+(\d+)\s+idle\s+(\d+)\s+max\s+(\d+)\s+idle-timeout\s+(\d+)$`
`clamdStatsMemRegexp     = ^heap\s+(\d+.\d+\w)\s+mmap\s+(\d+.\d+\w)\s+used\s+(\d+.\d+\w)\s+free\s+(\d+.\d+\w)\s+releasable\s+(\d+.\d+\w)\s+pools\s+(\d+)\s+pools_used\s+(\d+.\d+\w)\s+pools_total\s+(\d+.\d+\w)$`

The stats matchers are written in continuation-passing style so that
the greedy quantifiers backtrack exactly as Go's leftmost-first
engine does (e.g. `\d+.\d+\w` matches `123M` by giving the first `\d+`
only `1`, since `.` matches any non-newline character).
-/

/-- Greedy `+` over a character class with backtracking: candidate run
lengths are tried from `n` down to 1. -/
def plusBTAux {σ : Type} (l : List Char)
    (k : List Char → List Char → Option σ) : Nat → Option σ
  | 0 => none
  | m + 1 => (k (l.take (m + 1)) (l.drop (m + 1))).orElse fun _ =>
      plusBTAux l k m

/-- Greedy `+` over the class `p` starting from the maximal run. -/
def plusBT {σ : Type} (p : Char → Bool) (l : List Char)
    (k : List Char → List Char → Option σ) : Option σ :=
  plusBTAux l k (l.takeWhile p).length

/-- A literal in the pattern. -/
def litC {σ : Type} (w l : List Char) (k : List Char → Option σ) : Option σ :=
  if w.isPrefixOf l then k (l.drop w.length) else none

/-- RE2's `\s` class: `[\t\n\f\r ]`. -/
def goSpace (c : Char) : Bool :=
  c = '\t' || c = '\n' || c = '\x0c' || c = '\r' || c = ' '

/-- RE2's `\w` class: `[0-9A-Za-z_]`. -/
def goWord (c : Char) : Bool :=
  c.isDigit || c.isAlpha || c = '_'

/-- The capture group `(\d+.\d+\w)` of the memory regex: two greedy
digit runs around one arbitrary non-newline character (the unescaped
`.`), closed by one word character; the continuation receives the
captured text and the rest. -/
def byteTokC {σ : Type} (l : List Char)
    (k : List Char → List Char → Option σ) : Option σ :=
  plusBT Char.isDigit l fun d1 r1 =>
    match r1 with
    | c :: r2 =>
      if c = '\n' then none else
        plusBT Char.isDigit r2 fun d2 r3 =>
          match r3 with
          | w :: r4 => if goWord w then k (d1 ++ c :: (d2 ++ [w])) r4 else none
          | [] => none
    | [] => none

/-- Embeds `clamdStatsQueueRegexp.FindStringSubmatch` (success returns
the single capture).  The trailing `.*$` accepts exactly the
newline-free remainders. -/
def queueMatch (l : List Char) : Option (List Char) :=
  plusBT Char.isDigit l fun ds r1 =>
    plusBT goSpace r1 fun _ r2 =>
      litC "item".toList r2 fun r3 =>
        if r3.all (fun c => c ≠ '\n') then some ds else none

/-- Embeds `clamdStatsThreadsRegexp.FindStringSubmatch` (success
returns the four captures). -/
def threadsMatch (l : List Char) :
    Option (List Char × List Char × List Char × List Char) :=
  litC "live".toList l fun r1 =>
  plusBT goSpace r1 fun _ r2 =>
  plusBT Char.isDigit r2 fun d1 r3 =>
  plusBT goSpace r3 fun _ r4 =>
  litC "idle".toList r4 fun r5 =>
  plusBT goSpace r5 fun _ r6 =>
  plusBT Char.isDigit r6 fun d2 r7 =>
  plusBT goSpace r7 fun _ r8 =>
  litC "max".toList r8 fun r9 =>
  plusBT goSpace r9 fun _ r10 =>
  plusBT Char.isDigit r10 fun d3 r11 =>
  plusBT goSpace r11 fun _ r12 =>
  litC "idle-timeout".toList r12 fun r13 =>
  plusBT goSpace r13 fun _ r14 =>
  plusBT Char.isDigit r14 fun d4 r15 =>
  if r15.isEmpty then some (d1, d2, d3, d4) else none

/-- Embeds `clamdStatsMemRegexp.FindStringSubmatch` (success returns
the eight captures in source order: heap, mmap, used, free,
releasable, pools, pools_used, pools_total). -/
def memMatch (l : List Char) :
    Option (List Char × List Char × List Char × List Char × List Char ×
      List Char × List Char × List Char) :=
  litC "heap".toList l fun r1 =>
  plusBT goSpace r1 fun _ r2 =>
  byteTokC r2 fun t1 r3 =>
  plusBT goSpace r3 fun _ r4 =>
  litC "mmap".toList r4 fun r5 =>
  plusBT goSpace r5 fun _ r6 =>
  byteTokC r6 fun t2 r7 =>
  plusBT goSpace r7 fun _ r8 =>
  litC "used".toList r8 fun r9 =>
  plusBT goSpace r9 fun _ r10 =>
  byteTokC r10 fun t3 r11 =>
  plusBT goSpace r11 fun _ r12 =>
  litC "free".toList r12 fun r13 =>
  plusBT goSpace r13 fun _ r14 =>
  byteTokC r14 fun t4 r15 =>
  plusBT goSpace r15 fun _ r16 =>
  litC "releasable".toList r16 fun r17 =>
  plusBT goSpace r17 fun _ r18 =>
  byteTokC r18 fun t5 r19 =>
  plusBT goSpace r19 fun _ r20 =>
  litC "pools".toList r20 fun r21 =>
  plusBT goSpace r21 fun _ r22 =>
  plusBT Char.isDigit r22 fun d6 r23 =>
  plusBT goSpace r23 fun _ r24 =>
  litC "pools_used".toList r24 fun r25 =>
  plusBT goSpace r25 fun _ r26 =>
  byteTokC r26 fun t7 r27 =>
  plusBT goSpace r27 fun _ r28 =>
  litC "pools_total".toList r28 fun r29 =>
  plusBT goSpace r29 fun _ r30 =>
  byteTokC r30 fun t8 r31 =>
  if r31.isEmpty then some (t1, t2, t3, t4, t5, d6, t7, t8) else none

/-- Embeds `clamdVersionRegexp.FindStringSubmatch`.  The three lazy
groups `(.*?)` pick the text up to the first `/`, then up to the next
`/`, then everything to the end; `.` never matches `'\n'`, so a
newline anywhere after the prefix makes the whole match fail. -/
def versionMatch (l : List Char) : Option (List Char × List Char × List Char) :=
  litC "ClamAV ".toList l fun r1 =>
    let a := r1.takeWhile (fun c => c ≠ '/')
    if '\n' ∈ a then none else
      match r1.dropWhile (fun c => c ≠ '/') with
      | '/' :: r2 =>
        let b := r2.takeWhile (fun c => c ≠ '/')
        if '\n' ∈ b then none else
          match r2.dropWhile (fun c => c ≠ '/') with
          | '/' :: r3 => if '\n' ∈ r3 then none else some (a, b, r3)
          | _ => none
      | _ => none

/-- Model of a Go `float64` value as used by the checker: either the
`math.NaN()` sentinel or a numeric value.  The checker performs no
arithmetic on these values, so this exact model suffices. -/
inductive F where
  | nan : F
  | num : ℚ → F
  deriving DecidableEq, Repr

/-- `math.MaxInt64`, the upper bound of Go's `int` on 64-bit hosts. -/
def int64Max : Int := 9223372036854775807

/-- `math.MinInt64`, the lower bound of Go's `int` on 64-bit hosts. -/
def int64Min : Int := -9223372036854775808

/-- Embeds `strconv.Atoi` on a 64-bit host: optional sign followed by
decimal digits; a value outside the `int64` range makes `Atoi` return
`ErrRange` (with a clamped value the callers never look at — `cvtInt`
and `collectVersion` only test the error), modelled as `none`. -/
def goAtoi (l : List Char) : Option Int :=
  match l with
  | [] => none
  | c :: t =>
    if c = '-' then
      if t.isEmpty then none
      else if t.all Char.isDigit then
        if -(Icap.digitsToNat t : Int) < int64Min then none
        else some (-(Icap.digitsToNat t : Int))
      else none
    else if c = '+' then
      if t.isEmpty then none
      else if t.all Char.isDigit then
        if (Icap.digitsToNat t : Int) > int64Max then none
        else some ((Icap.digitsToNat t : Int))
      else none
    else if (c :: t).all Char.isDigit then
      if (Icap.digitsToNat (c :: t) : Int) > int64Max then none
      else some ((Icap.digitsToNat (c :: t) : Int))
    else none

/-- Embeds `cvtInt`: `strconv.Atoi`, `NaN` on error. -/
def cvtInt (number : List Char) : F :=
  match goAtoi number with
  | some v => F.num v
  | none => F.nan

/-- The 1024-based byte-size unit multipliers. -/
def unitMult : Char → Option ℚ
  | 'B' => some 1
  | 'K' => some 1024
  | 'M' => some (1024 ^ 2)
  | 'G' => some (1024 ^ 3)
  | 'T' => some (1024 ^ 4)
  | 'P' => some (1024 ^ 5)
  | _ => none

/-- Modelled from the spec: `bytesize.Parse` of the vendored dependency
`github.com/shenwei356/util/bytesize` is not under src/.  Per the spec
(§3, §4.4, §8) a human-readable byte-size token such as `12.5M` is a
decimal number with an optional fractional part followed by a unit
letter and is converted to a byte count with 1024-based multipliers;
anything else is a parse error. -/
def parseByteSize (l : List Char) : Option ℚ :=
  let intPart := l.takeWhile Char.isDigit
  if intPart.isEmpty then none else
    match l.dropWhile Char.isDigit with
    | '.' :: r2 =>
      let frac := r2.takeWhile Char.isDigit
      if frac.isEmpty then none else
        match r2.dropWhile Char.isDigit with
        | [u] => (unitMult u).map fun m =>
            ((Icap.digitsToNat intPart : ℚ) +
              (Icap.digitsToNat frac : ℚ) / (10 ^ frac.length : ℚ)) * m
        | _ => none
    | [u] => (unitMult u).map fun m => (Icap.digitsToNat intPart : ℚ) * m
    | _ => none

/-- Embeds `cvtByteSize`: `bytesize.Parse`, `NaN` on error. -/
def cvtByteSize (number : List Char) : F :=
  match parseByteSize number with
  | some v => F.num v
  | none => F.nan

/-- Embeds `clamdStats.Queue`. -/
structure QueueStats where
  Length : F
  deriving DecidableEq, Repr

/-- Embeds `clamdStats.Threads`. -/
structure ThreadsStats where
  Live : F
  Idle : F
  Max : F
  deriving DecidableEq, Repr

/-- Embeds `clamdStats.Mem.Pools`. -/
structure PoolsStats where
  Count : F
  Used : F
  Total : F
  deriving DecidableEq, Repr

/-- Embeds `clamdStats.Mem`. -/
structure MemStats where
  Heap : F
  MMap : F
  Used : F
  Free : F
  Releasable : F
  Pools : PoolsStats
  deriving DecidableEq, Repr

/-- Embeds the Go struct `clamdStats`. -/
structure clamdStats where
  Queue : QueueStats
  Threads : ThreadsStats
  Mem : MemStats
  deriving DecidableEq, Repr

/-- The all-`NaN` initialisation at the top of `collectStats`. -/
def clamdStatsNaN : clamdStats :=
  ⟨⟨F.nan⟩, ⟨F.nan, F.nan, F.nan⟩,
    ⟨F.nan, F.nan, F.nan, F.nan, F.nan, ⟨F.nan, F.nan, F.nan⟩⟩⟩

/-- The parsing tail of `collectStats` (after `cl.Stats()` returned the
raw sections): three independent sub-matches, each either populating
its whole section from the captures or leaving it untouched. -/
def parseStats (s : Clamd.ClamDStats) : clamdStats :=
  let st0 := clamdStatsNaN
  let st1 := match queueMatch s.Queue with
    | some ds => { st0 with Queue := ⟨cvtInt ds⟩ }
    | none => st0
  let st2 := match threadsMatch s.Threads with
    | some (d1, d2, d3, _) =>
      { st1 with Threads := ⟨cvtInt d1, cvtInt d2, cvtInt d3⟩ }
    | none => st1
  match memMatch s.Memstats with
  | some (t1, t2, t3, t4, t5, d6, t7, t8) =>
    { st2 with Mem :=
      ⟨cvtByteSize t1, cvtByteSize t2, cvtByteSize t3, cvtByteSize t4,
        cvtByteSize t5, ⟨cvtInt d6, cvtByteSize t7, cvtByteSize t8⟩⟩ }
  | none => st2

/-- One scrape's worth of network outcomes for the command-protocol
checker: whether the URL parses (`clamd.NewClamd`), the outcome of the
version query, of the stats query and of the EICAR stream scan
(`none` = the call returned a hard error), and the wall-clock seconds
measured around `ScanBytes`. -/
structure ClamdEnv where
  newClamdOk : Bool
  versionResp : Option (List Char)
  statsResp : Option Clamd.ClamDStats
  scanResp : Option (List Clamd.Result)
  scanElapsed : ℚ

/-- Result of `collectVersion` (named returns of the Go function, with
their zero values where an early `return` leaves them unset). -/
structure VersionResult where
  version : List Char
  dbVersion : F
  dbTime : F
  err : Bool
  deriving DecidableEq, Repr

/-- Embeds `collectVersion`.  `dateParse` abstracts
`time.ParseInLocation(clamdDBTimeFormat, ·, time.Local)` (standard
library, not part of this repository): it returns the Unix timestamp or
fails. -/
def collectVersion (dateParse : List Char → Option Int) (env : ClamdEnv) :
    VersionResult :=
  if !env.newClamdOk then ⟨[], F.num 0, F.num 0, true⟩ else
  match env.versionResp with
  | none => ⟨[], F.num 0, F.num 0, true⟩
  | some v =>
    match versionMatch v with
    | none => ⟨[], F.num 0, F.num 0, true⟩
    | some (ver, dbv, dbd) =>
      match goAtoi dbv with
      | none => ⟨ver, F.num 0, F.num 0, true⟩
      | some n =>
        match dateParse dbd with
        | none => ⟨ver, F.num n, F.num 0, true⟩
        | some ts => ⟨ver, F.num n, F.num ts, false⟩

/-- Embeds `collectStats`: the snapshot starts all-`NaN`; any hard
error from client construction or the stats query returns it
unchanged (with the error); otherwise the sections are parsed. -/
def collectStats (env : ClamdEnv) : clamdStats × Bool :=
  if !env.newClamdOk then (clamdStatsNaN, true) else
  match env.statsResp with
  | none => (clamdStatsNaN, true)
  | some s => (parseStats s, false)

/-- Embeds `collectEicar` (detected, elapsed, err).  `elapsed` starts
at `NaN` and is replaced by the measured duration right after
`ScanBytes` returns — also when `ScanBytes` failed; `detected` is 1
only when exactly one result came back with status `FOUND`. -/
def collectEicar (env : ClamdEnv) : Nat × F × Bool :=
  if !env.newClamdOk then (0, F.nan, true) else
  match env.scanResp with
  | none => (0, F.num env.scanElapsed, true)
  | some results =>
    match results with
    | [r] => (if r.Status = Clamd.RES_FOUND then 1 else 0,
        F.num env.scanElapsed, false)
    | _ => (0, F.num env.scanElapsed, false)

/-- One constant metric handed to the Prometheus channel: gauge name,
label values, gauge value. -/
structure Metric where
  name : String
  labels : List (List Char)
  value : F
  deriving DecidableEq, Repr

/-- The gauge names registered by `NewClamDChecker`, in the order
`Describe` emits them. -/
def describeNames : List String :=
  ["clamav_clamd_up",
   "clamav_clamd_db_version_info",
   "clamav_clamd_db_time_info",
   "clamav_clamd_stats_queue_length",
   "clamav_clamd_stats_threads_live",
   "clamav_clamd_stats_threads_idle",
   "clamav_clamd_stats_threads_max",
   "clamav_clamd_stats_mem_heap_bytes",
   "clamav_clamd_stats_mem_mmap_bytes",
   "clamav_clamd_stats_mem_used_bytes",
   "clamav_clamd_stats_mem_free_bytes",
   "clamav_clamd_stats_mem_realeasable_bytes",
   "clamav_clamd_stats_mem_pools",
   "clamav_clamd_stats_mem_pools_used_bytes",
   "clamav_clamd_stats_mem_pools_total_bytes",
   "clamav_clamd_eicar_detected",
   "clamav_clamd_eicar_detection_time_seconds"]

/-- Embeds `(*ClamDChecker).Collect`: the metric values sent to the
channel, in source order.  On a version failure `up` is 0 and
`dbVersion`/`dbTime` are overwritten with `NaN`; the stats error and
the EICAR error are discarded (`stats, _ :=` and
`eicarDetected, eicarTime, _ :=`). -/
def Collect (dateParse : List Char → Option Int) (env : ClamdEnv) :
    List Metric :=
  let v := collectVersion dateParse env
  let up := if v.err then F.num 0 else F.num 1
  let dbVersion := if v.err then F.nan else v.dbVersion
  let dbTime := if v.err then F.nan else v.dbTime
  let stats := (collectStats env).1
  let e := collectEicar env
  [⟨"clamav_clamd_up", [v.version], up⟩,
   ⟨"clamav_clamd_db_version_info", [], dbVersion⟩,
   ⟨"clamav_clamd_db_time_info", [], dbTime⟩,
   ⟨"clamav_clamd_stats_queue_length", [], stats.Queue.Length⟩,
   ⟨"clamav_clamd_stats_threads_live", [], stats.Threads.Live⟩,
   ⟨"clamav_clamd_stats_threads_idle", [], stats.Threads.Idle⟩,
   ⟨"clamav_clamd_stats_threads_max", [], stats.Threads.Max⟩,
   ⟨"clamav_clamd_stats_mem_heap_bytes", [], stats.Mem.Heap⟩,
   ⟨"clamav_clamd_stats_mem_mmap_bytes", [], stats.Mem.MMap⟩,
   ⟨"clamav_clamd_stats_mem_used_bytes", [], stats.Mem.Used⟩,
   ⟨"clamav_clamd_stats_mem_free_bytes", [], stats.Mem.Free⟩,
   ⟨"clamav_clamd_stats_mem_realeasable_bytes", [], stats.Mem.Releasable⟩,
   ⟨"clamav_clamd_stats_mem_pools", [], stats.Mem.Pools.Count⟩,
   ⟨"clamav_clamd_stats_mem_pools_used_bytes", [], stats.Mem.Pools.Used⟩,
   ⟨"clamav_clamd_stats_mem_pools_total_bytes", [], stats.Mem.Pools.Total⟩,
   ⟨"clamav_clamd_eicar_detected", [], F.num (e.1 : ℚ)⟩,
   ⟨"clamav_clamd_eicar_detection_time_seconds", [], e.2.1⟩]

/-- Embeds the `ClamDChecker` struct state visible to `Collect`: its
only data field is the configured URL; the `prometheus.Desc` fields are
created once in `NewClamDChecker` and never change. -/
structure ClamDChecker where
  optsURL : List Char
  deriving DecidableEq, Repr

/-- Embeds `Collect` with the receiver threaded through explicitly: the Go
method never writes any field of its receiver, so the state comes back
unchanged. -/
def CollectS (dateParse : List Char → Option Int) (c : ClamDChecker)
    (env : ClamdEnv) : List Metric × ClamDChecker :=
  (Collect dateParse env, c)

/-- An endpoint that accepts no connection: client construction works
(the URL is well-formed) but every network round-trip fails. -/
def Unreachable (env : ClamdEnv) : Prop :=
  env.newClamdOk = true ∧ env.versionResp = none ∧
    env.statsResp = none ∧ env.scanResp = none

/-- The gauge vector `Collect` produces against an unreachable
endpoint: `up` = 0 with an empty version label, database and stats
gauges at the `NaN` sentinel — but the EICAR step, whose error is also
swallowed, reports detected = 0 (a plain zero) and the measured
elapsed seconds `q`, not sentinels. -/
def unreachableReading (q : ℚ) : List Metric :=
  [⟨"clamav_clamd_up", [[]], F.num 0⟩,
   ⟨"clamav_clamd_db_version_info", [], F.nan⟩,
   ⟨"clamav_clamd_db_time_info", [], F.nan⟩,
   ⟨"clamav_clamd_stats_queue_length", [], F.nan⟩,
   ⟨"clamav_clamd_stats_threads_live", [], F.nan⟩,
   ⟨"clamav_clamd_stats_threads_idle", [], F.nan⟩,
   ⟨"clamav_clamd_stats_threads_max", [], F.nan⟩,
   ⟨"clamav_clamd_stats_mem_heap_bytes", [], F.nan⟩,
   ⟨"clamav_clamd_stats_mem_mmap_bytes", [], F.nan⟩,
   ⟨"clamav_clamd_stats_mem_used_bytes", [], F.nan⟩,
   ⟨"clamav_clamd_stats_mem_free_bytes", [], F.nan⟩,
   ⟨"clamav_clamd_stats_mem_realeasable_bytes", [], F.nan⟩,
   ⟨"clamav_clamd_stats_mem_pools", [], F.nan⟩,
   ⟨"clamav_clamd_stats_mem_pools_used_bytes", [], F.nan⟩,
   ⟨"clamav_clamd_stats_mem_pools_total_bytes", [], F.nan⟩,
   ⟨"clamav_clamd_eicar_detected", [], F.num 0⟩,
   ⟨"clamav_clamd_eicar_detection_time_seconds", [], F.num q⟩]

end Exporter

/-!
## List helper lemmas
-/

theorem takeWhile_append_all {p : Char → Bool} {a : List Char}
    (h : ∀ c ∈ a, p c) (b : List Char) :
    (a ++ b).takeWhile p = a ++ b.takeWhile p := by
  induction a with
  | nil => simp
  | cons x t ih =>
    have hx : p x := h x (by simp)
    have ht : ∀ c ∈ t, p c := fun c hc => h c (by simp [hc])
    simp [List.takeWhile_cons, hx, ih ht]

theorem dropWhile_append_all {p : Char → Bool} {a : List Char}
    (h : ∀ c ∈ a, p c) (b : List Char) :
    (a ++ b).dropWhile p = b.dropWhile p := by
  induction a with
  | nil => simp
  | cons x t ih =>
    have hx : p x := h x (by simp)
    have ht : ∀ c ∈ t, p c := fun c hc => h c (by simp [hc])
    simp [List.dropWhile_cons, hx, ih ht]

theorem dropWhile_all {p : Char → Bool} {l : List Char}
    (h : ∀ c ∈ l, p c) : l.dropWhile p = [] := by
  induction l with
  | nil => simp
  | cons x t ih =>
    have hx : p x := h x (by simp)
    have ht : ∀ c ∈ t, p c := fun c hc => h c (by simp [hc])
    simp [List.dropWhile_cons, hx, ih ht]

namespace Clamd

theorem statusToken_append {pre st : List Char} (h : ∀ c ∈ st, c ≠ ' ') :
    statusToken (pre ++ ' ' :: st) = st := by
  unfold statusToken
  have h1 : (pre ++ ' ' :: st).reverse = st.reverse ++ (' ' :: pre.reverse) := by
    simp
  rw [h1, takeWhile_append_all (fun c hc => by
    simp only [decide_eq_true_eq]
    exact h c (by simpa using hc))]
  simp [List.takeWhile_cons]

/-!
## Soundness of the `resRGX` matcher
-/

theorem statusOf_eq {t st : List Char} (h : statusOf t = some st) :
    st = t ∧ (t = RES_FOUND ∨ t = RES_ERROR ∨ t = RES_OK) := by
  unfold statusOf at h
  split_ifs at h with h1 h2 h3 <;> simp_all

theorem contSp_eq {rem st : List Char} (h : contSp rem = some st) :
    rem = ' ' :: st ∧
      (st = RES_FOUND ∨ st = RES_ERROR ∨ st = RES_OK) := by
  rcases rem with _ | ⟨c, t⟩
  · simp [contSp] at h
  · simp only [contSp] at h
    split_ifs at h with hc
    subst hc
    obtain ⟨h1, h2⟩ := statusOf_eq h
    exact ⟨by rw [h1], by rw [h1]; exact h2⟩

theorem parseParen_sound {rem h ds r3 : List Char}
    (hp : parseParen rem = some (h, ds, r3)) :
    rem = '(' :: (h ++ ':' :: (ds ++ ')' :: r3)) := by
  rcases rem with _ | ⟨c0, r⟩
  · simp [parseParen] at hp
  · simp only [parseParen] at hp
    split_ifs at hp with hc0 h1
    subst hc0
    rcases hd : r.dropWhile (fun c => c ≠ ':') with _ | ⟨c, r2⟩ <;>
      rw [hd] at hp
    · simp at hp
    · simp only at hp
      split_ifs at hp with hc h2
      subst hc
      rcases hd2 : r2.dropWhile Char.isDigit with _ | ⟨c2, r3x⟩ <;>
        rw [hd2] at hp
      · simp at hp
      · simp only at hp
        split_ifs at hp with hc2
        subst hc2
        simp only [Option.some.injEq, Prod.mk.injEq] at hp
        obtain ⟨e1, e2, e3⟩ := hp
        have hr : r.takeWhile (fun c => c ≠ ':') ++
            r.dropWhile (fun c => c ≠ ':') = r :=
          List.takeWhile_append_dropWhile _ _
        have hr2 : r2.takeWhile Char.isDigit ++
            r2.dropWhile Char.isDigit = r2 :=
          List.takeWhile_append_dropWhile _ _
        rw [hd] at hr; rw [hd2] at hr2
        subst e3
        have t : r = h ++ ':' :: (ds ++ ')' :: r3x) := by
          rw [← e1, ← e2, hr2, hr]
        rw [t]

theorem withParenOpt_sound {rest : List Char} {k1 : Nat} {t : TailCaps}
    (h : withParenOpt rest k1 = some t) :
    (∃ pre, rest = pre ++ ' ' :: t.status) ∧
      (t.status = RES_FOUND ∨ t.status = RES_ERROR ∨ t.status = RES_OK) := by
  unfold withParenOpt at h
  rcases hpp : parseParen (rest.drop k1) with _ | ⟨hh, ds, r3⟩ <;>
    rw [hpp] at h
  · simp at h
  · simp only at h
    rcases Option.map_eq_some'.mp h with ⟨st, hst, he⟩
    obtain ⟨hrem, hlits⟩ := contSp_eq hst
    subst he
    refine ⟨⟨rest.take k1 ++ '(' :: (hh ++ ':' :: (ds ++ [')'])), ?_⟩, hlits⟩
    conv_lhs => rw [← List.take_append_drop k1 rest]
    rw [parseParen_sound hpp, hrem]
    simp

theorem tryDescStep_sound {rest : List Char} {k1 : Nat} {t : TailCaps}
    (h : tryDescStep rest k1 = some t) :
    (∃ pre, rest = pre ++ ' ' :: t.status) ∧
      (t.status = RES_FOUND ∨ t.status = RES_ERROR ∨ t.status = RES_OK) := by
  unfold tryDescStep at h
  rcases hw : withParenOpt rest k1 with _ | tw <;> rw [hw] at h <;>
    simp only [Option.orElse] at h
  · rcases Option.map_eq_some'.mp h with ⟨st, hst, he⟩
    obtain ⟨hrem, hlits⟩ := contSp_eq hst
    subst he
    refine ⟨⟨rest.take k1, ?_⟩, hlits⟩
    conv_lhs => rw [← List.take_append_drop k1 rest]
    rw [hrem]
  · cases Option.some.inj h
    exact withParenOpt_sound hw

theorem tryDesc_sound {rest : List Char} {k : Nat} {t : TailCaps}
    (h : tryDesc rest k = some t) :
    (∃ pre, rest = pre ++ ' ' :: t.status) ∧
      (t.status = RES_FOUND ∨ t.status = RES_ERROR ∨ t.status = RES_OK) := by
  induction k with
  | zero => simp [tryDesc] at h
  | succ n ih =>
    rw [tryDesc] at h
    rcases hs : tryDescStep rest (n + 1) with _ | ts <;> rw [hs] at h <;>
      simp only [Option.orElse] at h
    · exact ih h
    · cases Option.some.inj h
      exact tryDescStep_sound hs

theorem parsePath_sound {l p rest : List Char}
    (h : parsePath l = some (p, rest)) :
    l = p ++ ':' :: ' ' :: rest := by
  simp only [parsePath] at h
  split_ifs at h with h1
  rcases hd : l.dropWhile (fun c => c ≠ ':') with _ | ⟨c, r⟩ <;> rw [hd] at h
  · simp at h
  · rcases r with _ | ⟨c2, r2⟩
    · simp at h
    · simp only at h
      split_ifs at h with hc
      obtain ⟨hc1, hc2⟩ := hc
      subst hc1; subst hc2
      simp only [Option.some.injEq, Prod.mk.injEq] at h
      obtain ⟨e1, e2⟩ := h
      have hl : l.takeWhile (fun c => c ≠ ':') ++
          l.dropWhile (fun c => c ≠ ':') = l :=
        List.takeWhile_append_dropWhile _ _
      rw [hd] at hl
      rw [← e1, ← e2]
      exact hl.symm

theorem resMatch_sound {l : List Char} {caps : ResCaps}
    (h : resMatch l = some caps) :
    (∃ pre, l = pre ++ ' ' :: caps.status) ∧
      (caps.status = RES_FOUND ∨ caps.status = RES_ERROR ∨
        caps.status = RES_OK) := by
  unfold resMatch at h
  rcases hpp : parsePath l with _ | ⟨p, rest⟩ <;> rw [hpp] at h
  · simp at h
  · simp only at h
    have hl := parsePath_sound hpp
    rcases htd : tryDesc rest (rest.takeWhile (fun c => c ≠ ':')).length with
        _ | t <;> rw [htd] at h
    · simp only at h
      rcases Option.map_eq_some'.mp h with ⟨st, hst, he⟩
      obtain ⟨h1, h2⟩ := statusOf_eq hst
      subst he
      subst h1
      refine ⟨⟨p ++ [':'], ?_⟩, ?_⟩
      · rw [hl]; simp
      · simpa using h2
    · simp only [Option.some.injEq] at h
      subst h
      obtain ⟨⟨pre, hpre⟩, hlits⟩ := tryDesc_sound htd
      refine ⟨⟨p ++ ':' :: ' ' :: pre, ?_⟩, hlits⟩
      rw [hl, hpre]
      simp

theorem resMatch_statusToken {l : List Char} {caps : ResCaps}
    (h : resMatch l = some caps) : statusToken l = caps.status := by
  obtain ⟨⟨pre, hpre⟩, hlits⟩ := resMatch_sound h
  rw [hpre]
  refine statusToken_append fun c hc => ?_
  rcases hlits with h1 | h1 | h1 <;> rw [h1] at hc
  · exact (by decide : ∀ x ∈ RES_FOUND, x ≠ ' ') c hc
  · exact (by decide : ∀ x ∈ RES_ERROR, x ≠ ' ') c hc
  · exact (by decide : ∀ x ∈ RES_OK, x ≠ ' ') c hc

theorem statsStep_total {st : ClamDStats} {raw : List Char}
    (h : wellFormedLen raw = true) : (statsStep st raw).isSome = true := by
  unfold statsStep
  unfold wellFormedLen at h
  split_ifs at h ⊢ <;> simp_all [sliceFrom]

theorem statsFoldAux_total {lines : List (List Char)}
    (h : ∀ l ∈ lines, wellFormedLen l = true) (st : ClamDStats) :
    (List.foldlM statsStep st lines).isSome = true := by
  induction lines generalizing st with
  | nil => simp
  | cons x xs ih =>
    simp only [List.foldlM_cons]
    have hx : (statsStep st x).isSome = true :=
      statsStep_total (h x (by simp))
    rcases hs : statsStep st x with _ | st2
    · rw [hs] at hx; simp at hx
    · simpa using ih (fun l hl => h l (by simp [hl])) st2

theorem responses_no_newline {s : List Char} (h : '\n' ∉ s) :
    responses s = [] := by
  rw [responses.eq_def]
  split
  · rename_i rest2 heq
    exfalso
    have hall : ∀ c ∈ s, (fun c => decide (c ≠ '\n')) c = true := by
      intro c hc
      simp only [decide_eq_true_eq]
      exact fun he => h (he ▸ hc)
    rw [dropWhile_all hall] at heq
    exact List.noConfusion heq
  · rfl

theorem responses_cons {line rest : List Char} (h : '\n' ∉ line) :
    responses (line ++ '\n' :: rest) =
      Result.parse (trimRight (line ++ ['\n'])) :: responses rest := by
  have hall : ∀ c ∈ line, (fun c => decide (c ≠ '\n')) c = true := by
    intro c hc
    simp only [decide_eq_true_eq]
    exact fun he => h (he ▸ hc)
  have hd : (line ++ '\n' :: rest).dropWhile (fun c => decide (c ≠ '\n')) =
      '\n' :: rest := by
    rw [dropWhile_append_all hall]
    simp [List.dropWhile_cons]
  have ht : (line ++ '\n' :: rest).takeWhile (fun c => decide (c ≠ '\n')) =
      line := by
    rw [takeWhile_append_all hall]
    simp [List.takeWhile_cons]
  rw [responses.eq_def]
  split
  · rename_i rest2 heq
    rw [hd] at heq
    cases heq
    rw [ht]
  · rename_i hne
    exact absurd hd (hne rest)

end Clamd

namespace Icap

theorem tryCodeAt_sound {l ds : List Char} (h : tryCodeAt l = some ds) :
    ∃ c rest, l = codeMarker ++ c :: rest ∧ c.isDigit = true := by
  simp only [tryCodeAt] at h
  split_ifs at h with h1 h2
  obtain ⟨t, ht⟩ := List.isPrefixOf_iff_prefix.mp h1
  subst ht
  rw [List.drop_left] at h h2
  rcases t with _ | ⟨c, rest⟩
  · simp at h2
  · rw [List.takeWhile_cons] at h2
    by_cases hc : c.isDigit
    · exact ⟨c, rest, rfl, hc⟩
    · rw [if_neg (by simp [hc])] at h2
      simp at h2

theorem tryCodeAt_mk_isSome {c : Char} {rest : List Char}
    (hc : c.isDigit = true) :
    (tryCodeAt (codeMarker ++ c :: rest)).isSome = true := by
  have h1 : codeMarker.isPrefixOf (codeMarker ++ c :: rest) = true :=
    List.isPrefixOf_iff_prefix.mpr ⟨c :: rest, rfl⟩
  simp only [tryCodeAt, h1, if_true, List.drop_left, List.takeWhile_cons, hc]
  simp

theorem findCode_suffix_isSome {suffix : List Char}
    (h : (tryCodeAt suffix).isSome = true) (pre : List Char) :
    (findCode (pre ++ suffix)).isSome = true := by
  induction pre with
  | nil =>
    rcases suffix with _ | ⟨c, t⟩
    · simpa [findCode] using h
    · rw [List.nil_append, findCode]
      rcases ht : tryCodeAt (c :: t) with _ | ds
      · rw [ht] at h; simp at h
      · simp [Option.orElse]
  | cons x pre ih =>
    rw [List.cons_append, findCode]
    rcases ht : tryCodeAt (x :: (pre ++ suffix)) with _ | ds
    · simpa [Option.orElse] using ih
    · simp [Option.orElse]

theorem findCode_isSome_iff {res : List Char} :
    (findCode res).isSome = true ↔ CodePattern res := by
  constructor
  · intro h
    induction res with
    | nil =>
      simp only [findCode] at h
      rcases ht : tryCodeAt [] with _ | ds <;> rw [ht] at h
      · simp at h
      · obtain ⟨c, rest, he, hc⟩ := tryCodeAt_sound ht
        exact ⟨[], c, rest, by simpa using he, hc⟩
    | cons x t ih =>
      rw [findCode] at h
      rcases ht : tryCodeAt (x :: t) with _ | ds <;> rw [ht] at h
      · simp only [Option.orElse] at h
        obtain ⟨pre, c, rest, he, hc⟩ := ih h
        exact ⟨x :: pre, c, rest, by simp [he], hc⟩
      · obtain ⟨c, rest, he, hc⟩ := tryCodeAt_sound ht
        exact ⟨[], c, rest, by simpa using he, hc⟩
  · rintro ⟨pre, c, rest, he, hc⟩
    subst he
    rw [List.append_assoc] at *
    exact findCode_suffix_isSome (tryCodeAt_mk_isSome hc) pre

theorem contains_semi_of_append (b r2 : List Char) :
    (b ++ ';' :: r2).contains ';' = true :=
  List.elem_eq_true_of_mem (by simp)

theorem contains_semi_mem {v : List Char} (h : v.contains ';' = true) :
    ';' ∈ v :=
  List.mem_of_elem_eq_true h

theorem threatThenSemi_suffix {t : List Char}
    (h : threatThenSemi t = true) (pre : List Char) :
    threatThenSemi (pre ++ t) = true := by
  induction pre with
  | nil => simpa using h
  | cons x pre ih =>
    rw [List.cons_append, threatThenSemi, ih]
    simp

theorem threatThenSemi_head (b r2 : List Char) :
    threatThenSemi ("Threat=".toList ++ (b ++ ';' :: r2)) = true := by
  have hs : "Threat=".toList ++ (b ++ ';' :: r2) =
      'T' :: ("hreat=".toList ++ (b ++ ';' :: r2)) := rfl
  rw [hs, threatThenSemi, ← hs]
  have hp : ("Threat=".toList).isPrefixOf ("Threat=".toList ++ (b ++ ';' :: r2)) =
      true := List.isPrefixOf_iff_prefix.mpr ⟨b ++ ';' :: r2, rfl⟩
  rw [hp, if_pos rfl]
  have hd : ("Threat=".toList ++ (b ++ ';' :: r2)).drop 7 = b ++ ';' :: r2 := by
    have h7 : ("Threat=".toList).length = 7 := by decide
    rw [← h7, List.drop_left]
  rw [hd, contains_semi_of_append]
  simp

theorem threatThenSemi_sound {line : List Char}
    (h : threatThenSemi line = true) :
    ∃ a b r2, line = a ++ "Threat=".toList ++ (b ++ ';' :: r2) := by
  induction line with
  | nil => simp [threatThenSemi] at h
  | cons x t ih =>
    rw [threatThenSemi] at h
    rcases Bool.or_eq_true_iff.mp h with h1 | h1
    · split_ifs at h1 with hp
      obtain ⟨v, hv⟩ := List.isPrefixOf_iff_prefix.mp hp
      have hdrop : (x :: t).drop 7 = v := by
        rw [← hv]
        have h7 : ("Threat=".toList).length = 7 := by decide
        rw [← h7, List.drop_left]
      rw [hdrop] at h1
      obtain ⟨b, r2, hbr⟩ := List.append_of_mem (contains_semi_mem h1)
      exact ⟨[], b, r2, by rw [← hv, hbr]; simp⟩
    · obtain ⟨a, b, r2, he⟩ := ih h1
      exact ⟨x :: a, b, r2, by simp [he]⟩

theorem infectionFound_suffix {t : List Char}
    (h : infectionFound t = true) (pre : List Char) :
    infectionFound (pre ++ t) = true := by
  induction pre with
  | nil => simpa using h
  | cons x pre ih =>
    rw [List.cons_append, infectionFound, ih]
    simp

theorem infectionFound_head {a b : List Char} (post : List Char)
    (hna : ∀ c ∈ a, c ≠ '\n') (hnb : ∀ c ∈ b, c ≠ '\n') :
    infectionFound
      (threatMarker ++ (a ++ ("Threat=".toList ++ (b ++ ';' :: post)))) =
      true := by
  have hs : threatMarker ++ (a ++ ("Threat=".toList ++ (b ++ ';' :: post))) =
      'X' :: ("-Infection-Found: ".toList ++
        (a ++ ("Threat=".toList ++ (b ++ ';' :: post)))) := rfl
  rw [hs, infectionFound, ← hs]
  have hp : threatMarker.isPrefixOf
      (threatMarker ++ (a ++ ("Threat=".toList ++ (b ++ ';' :: post)))) =
      true := List.isPrefixOf_iff_prefix.mpr ⟨_, rfl⟩
  rw [hp, if_pos rfl, List.drop_left]
  have hdeca : ∀ c ∈ a, (fun x => decide (x ≠ '\n')) c = true := by
    intro c hc
    simpa using hna c hc
  have hdecT : ∀ c ∈ "Threat=".toList, (fun x => decide (x ≠ '\n')) c = true :=
    by decide
  have hdecb : ∀ c ∈ b, (fun x => decide (x ≠ '\n')) c = true := by
    intro c hc
    simpa using hnb c hc
  rw [takeWhile_append_all hdeca, takeWhile_append_all hdecT,
    takeWhile_append_all hdecb, List.takeWhile_cons]
  simp only [decide_eq_true_eq]
  rw [if_pos (by decide : (';' : Char) ≠ '\n')]
  rw [threatThenSemi_suffix (threatThenSemi_head b _) a]
  simp

theorem infectionFound_sound {res : List Char}
    (h : infectionFound res = true) : InfectionPattern res := by
  induction res with
  | nil => simp [infectionFound] at h
  | cons x t ih =>
    rw [infectionFound] at h
    rcases Bool.or_eq_true_iff.mp h with h1 | h1
    · split_ifs at h1 with hp
      obtain ⟨u, hu⟩ := List.isPrefixOf_iff_prefix.mp hp
      have hdrop : (x :: t).drop threatMarker.length = u := by
        rw [← hu, List.drop_left]
      rw [hdrop] at h1
      obtain ⟨a, b, r2, hline⟩ := threatThenSemi_sound h1
      have hna : ∀ c ∈ a, c ≠ '\n' := by
        intro c hc
        have hmem : c ∈ u.takeWhile (fun x => decide (x ≠ '\n')) := by
          rw [hline]; simp [hc]
        simpa using List.mem_takeWhile_imp hmem
      have hnb : ∀ c ∈ b, c ≠ '\n' := by
        intro c hc
        have hmem : c ∈ u.takeWhile (fun x => decide (x ≠ '\n')) := by
          rw [hline]; simp [hc]
        simpa using List.mem_takeWhile_imp hmem
      refine ⟨[], a, b,
        r2 ++ u.dropWhile (fun x => decide (x ≠ '\n')), ?_,
        fun hm => hna '\n' hm rfl, fun hm => hnb '\n' hm rfl⟩
      have hu2 : u = a ++ "Threat=".toList ++
          (b ++ ';' :: (r2 ++ u.dropWhile (fun x => decide (x ≠ '\n')))) := by
        conv_lhs => rw [← List.takeWhile_append_dropWhile
          (fun x => decide (x ≠ '\n')) u]
        rw [hline]
        simp
      rw [← hu]
      conv_lhs => rw [hu2]
      simp only [List.append_assoc, List.nil_append]
    · obtain ⟨pre, a, b, post, he, hna, hnb⟩ := ih h1
      exact ⟨x :: pre, a, b, post, by simp [he], hna, hnb⟩

theorem infectionFound_complete {res : List Char} (h : InfectionPattern res) :
    infectionFound res = true := by
  obtain ⟨pre, a, b, post, he, hna, hnb⟩ := h
  subst he
  have hna2 : ∀ c ∈ a, c ≠ '\n' := fun c hc hch => hna (hch ▸ hc)
  have hnb2 : ∀ c ∈ b, c ≠ '\n' := fun c hc hch => hnb (hch ▸ hc)
  have := infectionFound_suffix (infectionFound_head post hna2 hnb2) pre
  simpa [List.append_assoc] using this

end Icap

namespace Exporter

theorem plusBTAux_sound {σ : Type} {l : List Char}
    {k : List Char → List Char → Option σ} {v : σ} {p : Char → Bool} :
    ∀ {n : Nat}, n ≤ (l.takeWhile p).length → plusBTAux l k n = some v →
    ∃ d r, l = d ++ r ∧ d ≠ [] ∧ (∀ c ∈ d, p c = true) ∧ k d r = some v := by
  intro n
  induction n with
  | zero => intro _ h; simp [plusBTAux] at h
  | succ m ih =>
    intro hn h
    rw [plusBTAux] at h
    rcases hk : k (l.take (m + 1)) (l.drop (m + 1)) with _ | v2 <;>
      rw [hk] at h <;> simp only [Option.orElse] at h
    · exact ih (by omega) h
    · cases Option.some.inj h
      have hwl : (l.takeWhile p).length ≤ l.length :=
        (List.takeWhile_sublist p).length_le
      refine ⟨l.take (m + 1), l.drop (m + 1),
        (List.take_append_drop _ _).symm, ?_, ?_, hk⟩
      · have hlen : (l.take (m + 1)).length = m + 1 := by
          rw [List.length_take]
          omega
        intro hemp
        rw [hemp] at hlen
        simp at hlen
      · intro c hc
        have ht : l.take (m + 1) = (l.takeWhile p).take (m + 1) := by
          conv_lhs => rw [← List.takeWhile_append_dropWhile p l]
          rw [List.take_append_of_le_length hn]
        rw [ht] at hc
        exact List.mem_takeWhile_imp ((List.take_sublist _ _).subset hc)

theorem plusBT_sound {σ : Type} {p : Char → Bool} {l : List Char}
    {k : List Char → List Char → Option σ} {v : σ}
    (h : plusBT p l k = some v) :
    ∃ d r, l = d ++ r ∧ d ≠ [] ∧ (∀ c ∈ d, p c = true) ∧ k d r = some v := by
  exact plusBTAux_sound (p := p) (le_refl _) h

theorem litC_sound {σ : Type} {w l : List Char} {k : List Char → Option σ}
    {v : σ} (h : litC w l k = some v) : k (l.drop w.length) = some v := by
  unfold litC at h
  split_ifs at h
  exact h

theorem byteTokC_pass {σ : Type} {l : List Char}
    {k : List Char → List Char → Option σ} {v : σ}
    (h : byteTokC l k = some v) : ∃ t r, k t r = some v := by
  unfold byteTokC at h
  obtain ⟨d1, r1, -, -, -, h⟩ := plusBT_sound h
  try simp only at h
  rcases r1 with _ | ⟨c, r2⟩
  · simp at h
  · simp only at h
    split_ifs at h
    obtain ⟨d2, r3, -, -, -, h⟩ := plusBT_sound h
    try simp only at h
    rcases r3 with _ | ⟨w2, r4⟩
    · simp at h
    · simp only at h
      split_ifs at h
      exact ⟨_, _, h⟩

theorem cvtInt_digits_num {ds : List Char} (h1 : ds ≠ [])
    (h2 : ∀ c ∈ ds, Char.isDigit c = true)
    (h3 : (Icap.digitsToNat ds : Int) ≤ int64Max) :
    ∃ n : ℚ, cvtInt ds = F.num n := by
  rcases ds with _ | ⟨c, t⟩
  · exact absurd rfl h1
  · have hc : c.isDigit = true := h2 c (by simp)
    have hm : c ≠ '-' := fun he => by rw [he] at hc; exact absurd hc (by decide)
    have hp : c ≠ '+' := fun he => by rw [he] at hc; exact absurd hc (by decide)
    have hall : (c :: t).all Char.isDigit = true := List.all_eq_true.mpr h2
    have hno : ¬((Icap.digitsToNat (c :: t) : Int) > int64Max) := not_lt.mpr h3
    refine ⟨((Icap.digitsToNat (c :: t) : Int) : ℚ), ?_⟩
    simp [cvtInt, goAtoi, hm, hp, hall, hno]

theorem cvtByteSize_num {u : List Char} (h : (parseByteSize u).isSome = true) :
    ∃ n : ℚ, cvtByteSize u = F.num n := by
  rcases hp : parseByteSize u with _ | q
  · rw [hp] at h
    simp at h
  · exact ⟨q, by simp [cvtByteSize, hp]⟩

theorem queueMatch_digits {q ds : List Char} (h : queueMatch q = some ds) :
    ds ≠ [] ∧ ∀ c ∈ ds, Char.isDigit c = true := by
  unfold queueMatch at h
  obtain ⟨d, r1, -, hne, hdig, h⟩ := plusBT_sound h
  try simp only at h
  obtain ⟨w1, r2, -, -, -, h⟩ := plusBT_sound h
  try simp only at h
  have h3 := litC_sound h
  split_ifs at h3
  cases Option.some.inj h3
  exact ⟨hne, hdig⟩

theorem threadsMatch_digits {th d1 d2 d3 d4 : List Char}
    (h : threadsMatch th = some (d1, d2, d3, d4)) :
    (d1 ≠ [] ∧ ∀ c ∈ d1, Char.isDigit c = true) ∧
    (d2 ≠ [] ∧ ∀ c ∈ d2, Char.isDigit c = true) ∧
    (d3 ≠ [] ∧ ∀ c ∈ d3, Char.isDigit c = true) ∧
    (d4 ≠ [] ∧ ∀ c ∈ d4, Char.isDigit c = true) := by
  unfold threadsMatch at h
  replace h := litC_sound h
  obtain ⟨w1, r2, -, -, -, h⟩ := plusBT_sound h
  try simp only at h
  obtain ⟨e1, r3, -, hne1, hdig1, h⟩ := plusBT_sound h
  try simp only at h
  obtain ⟨w2, r4, -, -, -, h⟩ := plusBT_sound h
  try simp only at h
  replace h := litC_sound h
  obtain ⟨w3, r6, -, -, -, h⟩ := plusBT_sound h
  try simp only at h
  obtain ⟨e2, r7, -, hne2, hdig2, h⟩ := plusBT_sound h
  try simp only at h
  obtain ⟨w4, r8, -, -, -, h⟩ := plusBT_sound h
  try simp only at h
  replace h := litC_sound h
  obtain ⟨w5, r10, -, -, -, h⟩ := plusBT_sound h
  try simp only at h
  obtain ⟨e3, r11, -, hne3, hdig3, h⟩ := plusBT_sound h
  try simp only at h
  obtain ⟨w6, r12, -, -, -, h⟩ := plusBT_sound h
  try simp only at h
  replace h := litC_sound h
  obtain ⟨w7, r14, -, -, -, h⟩ := plusBT_sound h
  try simp only at h
  obtain ⟨e4, r15, -, hne4, hdig4, h⟩ := plusBT_sound h
  try simp only at h
  split_ifs at h
  have he := Option.some.inj h
  simp only [Prod.mk.injEq] at he
  obtain ⟨he1, he2, he3, he4⟩ := he
  subst he1; subst he2; subst he3; subst he4
  exact ⟨⟨hne1, hdig1⟩, ⟨hne2, hdig2⟩, ⟨hne3, hdig3⟩, ⟨hne4, hdig4⟩⟩

theorem memMatch_pools_digits {m t1 t2 t3 t4 t5 d6 t7 t8 : List Char}
    (h : memMatch m = some (t1, t2, t3, t4, t5, d6, t7, t8)) :
    d6 ≠ [] ∧ ∀ c ∈ d6, Char.isDigit c = true := by
  unfold memMatch at h
  replace h := litC_sound h
  obtain ⟨w1, r2, -, -, -, h⟩ := plusBT_sound h
  try simp only at h
  obtain ⟨u1, r3, h⟩ := byteTokC_pass h
  try simp only at h
  obtain ⟨w2, r4, -, -, -, h⟩ := plusBT_sound h
  try simp only at h
  replace h := litC_sound h
  obtain ⟨w3, r6, -, -, -, h⟩ := plusBT_sound h
  try simp only at h
  obtain ⟨u2, r7, h⟩ := byteTokC_pass h
  try simp only at h
  obtain ⟨w4, r8, -, -, -, h⟩ := plusBT_sound h
  try simp only at h
  replace h := litC_sound h
  obtain ⟨w5, r10, -, -, -, h⟩ := plusBT_sound h
  try simp only at h
  obtain ⟨u3, r11, h⟩ := byteTokC_pass h
  try simp only at h
  obtain ⟨w6, r12, -, -, -, h⟩ := plusBT_sound h
  try simp only at h
  replace h := litC_sound h
  obtain ⟨w7, r14, -, -, -, h⟩ := plusBT_sound h
  try simp only at h
  obtain ⟨u4, r15, h⟩ := byteTokC_pass h
  try simp only at h
  obtain ⟨w8, r16, -, -, -, h⟩ := plusBT_sound h
  try simp only at h
  replace h := litC_sound h
  obtain ⟨w9, r18, -, -, -, h⟩ := plusBT_sound h
  try simp only at h
  obtain ⟨u5, r19, h⟩ := byteTokC_pass h
  try simp only at h
  obtain ⟨w10, r20, -, -, -, h⟩ := plusBT_sound h
  try simp only at h
  replace h := litC_sound h
  obtain ⟨w11, r22, -, -, -, h⟩ := plusBT_sound h
  try simp only at h
  obtain ⟨e6, r23, -, hne6, hdig6, h⟩ := plusBT_sound h
  try simp only at h
  obtain ⟨w12, r24, -, -, -, h⟩ := plusBT_sound h
  try simp only at h
  replace h := litC_sound h
  obtain ⟨w13, r26, -, -, -, h⟩ := plusBT_sound h
  try simp only at h
  obtain ⟨u7, r27, h⟩ := byteTokC_pass h
  try simp only at h
  obtain ⟨w14, r28, -, -, -, h⟩ := plusBT_sound h
  try simp only at h
  replace h := litC_sound h
  obtain ⟨w15, r30, -, -, -, h⟩ := plusBT_sound h
  try simp only at h
  obtain ⟨u8, r31, h⟩ := byteTokC_pass h
  try simp only at h
  split_ifs at h
  have he := Option.some.inj h
  have he6 : e6 = d6 := by
    have := congrArg (fun x => x.2.2.2.2.2.1) he
    simpa using this
  subst he6
  exact ⟨hne6, hdig6⟩

theorem parseStats_Queue (s : Clamd.ClamDStats) :
    (parseStats s).Queue =
      (match queueMatch s.Queue with
        | some ds => ⟨cvtInt ds⟩
        | none => ⟨F.nan⟩) := by
  rcases hq : queueMatch s.Queue with _ | ds <;>
    rcases ht : threadsMatch s.Threads with _ | ⟨d1, d2, d3, d4⟩ <;>
    rcases hm : memMatch s.Memstats with _ | ⟨t1, t2, t3, t4, t5, d6, t7, t8⟩ <;>
    simp [parseStats, hq, ht, hm, clamdStatsNaN]

theorem parseStats_Threads (s : Clamd.ClamDStats) :
    (parseStats s).Threads =
      (match threadsMatch s.Threads with
        | some (d1, d2, d3, _) => ⟨cvtInt d1, cvtInt d2, cvtInt d3⟩
        | none => ⟨F.nan, F.nan, F.nan⟩) := by
  rcases hq : queueMatch s.Queue with _ | ds <;>
    rcases ht : threadsMatch s.Threads with _ | ⟨d1, d2, d3, d4⟩ <;>
    rcases hm : memMatch s.Memstats with _ | ⟨t1, t2, t3, t4, t5, d6, t7, t8⟩ <;>
    simp [parseStats, hq, ht, hm, clamdStatsNaN]

theorem parseStats_Mem (s : Clamd.ClamDStats) :
    (parseStats s).Mem =
      (match memMatch s.Memstats with
        | some (t1, t2, t3, t4, t5, d6, t7, t8) =>
          ⟨cvtByteSize t1, cvtByteSize t2, cvtByteSize t3, cvtByteSize t4,
            cvtByteSize t5, ⟨cvtInt d6, cvtByteSize t7, cvtByteSize t8⟩⟩
        | none => ⟨F.nan, F.nan, F.nan, F.nan, F.nan, ⟨F.nan, F.nan, F.nan⟩⟩) := by
  rcases hq : queueMatch s.Queue with _ | ds <;>
    rcases ht : threadsMatch s.Threads with _ | ⟨d1, d2, d3, d4⟩ <;>
    rcases hm : memMatch s.Memstats with _ | ⟨t1, t2, t3, t4, t5, d6, t7, t8⟩ <;>
    simp [parseStats, hq, ht, hm, clamdStatsNaN]

end Exporter

namespace Exporter

theorem Collect_unreachable (dp : List Char → Option Int) {env : ClamdEnv}
    (h : Unreachable env) :
    Collect dp env = unreachableReading env.scanElapsed := by
  obtain ⟨h1, h2, h3, h4⟩ := h
  rcases env with ⟨ok, vr, sr, scr, q⟩
  simp only at h1 h2 h3 h4
  subst h1; subst h2; subst h3; subst h4
  simp [Collect, collectVersion, collectStats, collectEicar,
    unreachableReading, clamdStatsNaN]

end Exporter

/-!
## Claim theorems
-/

/-- C7 (counterexample): a section can fully match its sub-pattern and
still keep a field at the `NaN` sentinel.  The queue text
`99999999999999999999 items` fully matches `^(\d+)\s+item.*$`, but the
captured value exceeds `int64`, `strconv.Atoi` returns `ErrRange`, and
`cvtInt` leaves `Queue.Length = NaN`; likewise a memory line whose heap
token is `1x2_` fully matches the memory regex (its `.` and `\w` admit
it) yet the token fails the byte-size conversion, leaving
`Mem.Heap = NaN` inside a matched section — refuting "if the section's
raw text fully matches its sub-pattern, every captured field of that
section is populated". -/
theorem claim_C7_counterexample :
    (Exporter.queueMatch "99999999999999999999 items".toList).isSome = true ∧
    (Exporter.parseStats
      ⟨[], [], [], [], "99999999999999999999 items".toList⟩).Queue.Length =
      Exporter.F.nan ∧
    (Exporter.memMatch
      "heap 1x2_ mmap 2.0M used 8.0M free 1.0M releasable 0.5M pools 3 pools_used 4.0M pools_total 5.0M".toList).isSome
      = true ∧
    (Exporter.parseStats
      ⟨[], [],
        [],
        "heap 1x2_ mmap 2.0M used 8.0M free 1.0M releasable 0.5M pools 3 pools_used 4.0M pools_total 5.0M".toList,
        []⟩).Mem.Heap = Exporter.F.nan := by
  refine ⟨by decide, by decide, by decide, by decide⟩

/-- C7 (amended): the stats snapshot is all-or-nothing per section at
the match level.  If a section's raw text fails its sub-pattern, every
field of that section stays at the `NaN` sentinel (never zero); if it
fully matches, every field of the section is set from its capture via
the conversion functions — which yield a number whenever the integer
capture's value fits in `int64` (`strconv.Atoi`'s range) and whenever
the byte-size token parses; an out-of-range integer capture or an
unparseable matched byte token leaves that one field `NaN`.  Sections
are decided independently: each depends only on its own raw text
field. -/
theorem claim_C7_stats_all_or_nothing :
    (∀ s : Clamd.ClamDStats,
      (Exporter.queueMatch s.Queue = none →
        (Exporter.parseStats s).Queue.Length = Exporter.F.nan) ∧
      (∀ ds, Exporter.queueMatch s.Queue = some ds →
        (Exporter.parseStats s).Queue.Length = Exporter.cvtInt ds ∧
        ((Icap.digitsToNat ds : Int) ≤ Exporter.int64Max →
          ∃ n : ℚ,
            (Exporter.parseStats s).Queue.Length = Exporter.F.num n))) ∧
    (∀ s : Clamd.ClamDStats,
      (Exporter.threadsMatch s.Threads = none →
        (Exporter.parseStats s).Threads =
          ⟨Exporter.F.nan, Exporter.F.nan, Exporter.F.nan⟩) ∧
      (∀ d1 d2 d3 d4,
        Exporter.threadsMatch s.Threads = some (d1, d2, d3, d4) →
        (Exporter.parseStats s).Threads =
          ⟨Exporter.cvtInt d1, Exporter.cvtInt d2, Exporter.cvtInt d3⟩ ∧
        ((Icap.digitsToNat d1 : Int) ≤ Exporter.int64Max →
          (Icap.digitsToNat d2 : Int) ≤ Exporter.int64Max →
          (Icap.digitsToNat d3 : Int) ≤ Exporter.int64Max →
          ∃ n1 n2 n3 : ℚ, (Exporter.parseStats s).Threads =
            ⟨Exporter.F.num n1, Exporter.F.num n2, Exporter.F.num n3⟩))) ∧
    (∀ s : Clamd.ClamDStats,
      (Exporter.memMatch s.Memstats = none →
        (Exporter.parseStats s).Mem =
          ⟨Exporter.F.nan, Exporter.F.nan, Exporter.F.nan, Exporter.F.nan,
            Exporter.F.nan,
            ⟨Exporter.F.nan, Exporter.F.nan, Exporter.F.nan⟩⟩) ∧
      (∀ t1 t2 t3 t4 t5 d6 t7 t8,
        Exporter.memMatch s.Memstats = some (t1, t2, t3, t4, t5, d6, t7, t8) →
        (Exporter.parseStats s).Mem =
          ⟨Exporter.cvtByteSize t1, Exporter.cvtByteSize t2,
            Exporter.cvtByteSize t3, Exporter.cvtByteSize t4,
            Exporter.cvtByteSize t5,
            ⟨Exporter.cvtInt d6, Exporter.cvtByteSize t7,
              Exporter.cvtByteSize t8⟩⟩ ∧
        ((Icap.digitsToNat d6 : Int) ≤ Exporter.int64Max →
          ∃ n : ℚ, Exporter.cvtInt d6 = Exporter.F.num n) ∧
        (∀ u ∈ [t1, t2, t3, t4, t5, t7, t8],
          (Exporter.parseByteSize u).isSome = true →
          ∃ n : ℚ, Exporter.cvtByteSize u = Exporter.F.num n))) ∧
    (∀ s s2 : Clamd.ClamDStats,
      (s2.Queue = s.Queue →
        (Exporter.parseStats s2).Queue = (Exporter.parseStats s).Queue) ∧
      (s2.Threads = s.Threads →
        (Exporter.parseStats s2).Threads = (Exporter.parseStats s).Threads) ∧
      (s2.Memstats = s.Memstats →
        (Exporter.parseStats s2).Mem = (Exporter.parseStats s).Mem)) := by
  refine ⟨?_, ?_, ?_, ?_⟩
  · intro s
    constructor
    · intro hq
      rw [show (Exporter.parseStats s).Queue.Length =
        ((Exporter.parseStats s).Queue).Length from rfl,
        Exporter.parseStats_Queue s, hq]
    · intro ds hq
      have hL : (Exporter.parseStats s).Queue.Length = Exporter.cvtInt ds := by
        rw [show (Exporter.parseStats s).Queue.Length =
          ((Exporter.parseStats s).Queue).Length from rfl,
          Exporter.parseStats_Queue s, hq]
      refine ⟨hL, fun hrange => ?_⟩
      obtain ⟨hne, hdig⟩ := Exporter.queueMatch_digits hq
      obtain ⟨n, hn⟩ := Exporter.cvtInt_digits_num hne hdig hrange
      exact ⟨n, by rw [hL, hn]⟩
  · intro s
    constructor
    · intro ht
      rw [Exporter.parseStats_Threads s, ht]
    · intro d1 d2 d3 d4 ht
      have hT : (Exporter.parseStats s).Threads =
          ⟨Exporter.cvtInt d1, Exporter.cvtInt d2, Exporter.cvtInt d3⟩ := by
        rw [Exporter.parseStats_Threads s, ht]
      refine ⟨hT, fun hr1 hr2 hr3 => ?_⟩
      obtain ⟨⟨hne1, hdig1⟩, ⟨hne2, hdig2⟩, ⟨hne3, hdig3⟩, _⟩ :=
        Exporter.threadsMatch_digits ht
      obtain ⟨n1, hn1⟩ := Exporter.cvtInt_digits_num hne1 hdig1 hr1
      obtain ⟨n2, hn2⟩ := Exporter.cvtInt_digits_num hne2 hdig2 hr2
      obtain ⟨n3, hn3⟩ := Exporter.cvtInt_digits_num hne3 hdig3 hr3
      exact ⟨n1, n2, n3, by rw [hT, hn1, hn2, hn3]⟩
  · intro s
    constructor
    · intro hm
      rw [Exporter.parseStats_Mem s, hm]
    · intro t1 t2 t3 t4 t5 d6 t7 t8 hm
      obtain ⟨hne6, hdig6⟩ := Exporter.memMatch_pools_digits hm
      refine ⟨?_, fun hr => Exporter.cvtInt_digits_num hne6 hdig6 hr, ?_⟩
      · rw [Exporter.parseStats_Mem s, hm]
      · intro u _ hu
        exact Exporter.cvtByteSize_num hu
  · intro s s2
    refine ⟨?_, ?_, ?_⟩
    · intro he
      rw [Exporter.parseStats_Queue s, Exporter.parseStats_Queue s2, he]
    · intro he
      rw [Exporter.parseStats_Threads s, Exporter.parseStats_Threads s2, he]
    · intro he
      rw [Exporter.parseStats_Mem s, Exporter.parseStats_Mem s2, he]

/-- Witness for C7: the spec's own example stats lines — the threads
section populates with numbers (its captures are in range), and an
unparseable memory section stays all-`NaN`. -/
theorem claim_C7_witness :
    (∃ n1 n2 n3 : ℚ,
      (Exporter.parseStats
        ⟨[], [], "live 1 idle 0 max 12 idle-timeout 30".toList, "garbage".toList,
          "0 items".toList⟩).Threads =
        ⟨Exporter.F.num n1, Exporter.F.num n2, Exporter.F.num n3⟩) ∧
    (Exporter.parseStats
      ⟨[], [], "live 1 idle 0 max 12 idle-timeout 30".toList, "garbage".toList,
        "0 items".toList⟩).Mem =
      ⟨Exporter.F.nan, Exporter.F.nan, Exporter.F.nan, Exporter.F.nan,
        Exporter.F.nan,
        ⟨Exporter.F.nan, Exporter.F.nan, Exporter.F.nan⟩⟩ :=
  ⟨((claim_C7_stats_all_or_nothing.2.1 _).2 "1".toList "0".toList "12".toList
      "30".toList (by rfl)).2 (by decide) (by decide) (by decide),
   (claim_C7_stats_all_or_nothing.2.2.1 _).1 (by rfl)⟩

/-- C8 (counterexample): against a concrete unreachable endpoint, the
EICAR step's hard error is swallowed, yet the emitted
`clamav_clamd_eicar_detected` reading is the plain zero `0` — not the
NaN unknown sentinel — and the detection-time reading is the measured
elapsed value, refuting "every step-level reading whose hard error is
swallowed is set to an explicit unknown sentinel rather than zero". -/
theorem claim_C8_counterexample :
    Exporter.Unreachable ⟨true, none, none, none, 1⟩ ∧
    ((Exporter.Collect (fun _ => none) ⟨true, none, none, none, 1⟩).filter
        (fun m => m.name == "clamav_clamd_eicar_detected") =
      [⟨"clamav_clamd_eicar_detected", [], Exporter.F.num 0⟩]) ∧
    Exporter.F.num 0 ≠ Exporter.F.nan ∧
    ((Exporter.Collect (fun _ => none) ⟨true, none, none, none, 1⟩).filter
        (fun m => m.name == "clamav_clamd_eicar_detection_time_seconds") =
      [⟨"clamav_clamd_eicar_detection_time_seconds", [],
        Exporter.F.num 1⟩]) := by
  refine ⟨⟨rfl, rfl, rfl, rfl⟩, ?_, by simp, ?_⟩ <;>
    simp [Exporter.Collect, Exporter.collectVersion, Exporter.collectStats,
      Exporter.collectEicar, Exporter.clamdStatsNaN]

/-- C8 (amended): every scrape emits exactly one value per registered
gauge in `Describe` order; when the version query fails, `up` is 0 and
`dbVersion`/`dbTime` and every stats field are the NaN sentinel — but
the swallowed EICAR-step error leaves detected = 0 (a plain zero) and
the detection time = the measured elapsed seconds (NaN only if client
construction itself failed), as exhibited by the full unreachable
reading. -/
theorem claim_C8_down_scrape :
    (∀ (dp : List Char → Option Int) (env : Exporter.ClamdEnv),
      (Exporter.Collect dp env).map Exporter.Metric.name =
        Exporter.describeNames) ∧
    (∀ (dp : List Char → Option Int) (env : Exporter.ClamdEnv),
      Exporter.Unreachable env →
      Exporter.Collect dp env =
        Exporter.unreachableReading env.scanElapsed) := by
  constructor
  · intro dp env
    simp [Exporter.Collect, Exporter.describeNames]
  · intro dp env h
    exact Exporter.Collect_unreachable dp h

/-- Witness for C8: the concrete unreachable environment yields the
full "down" reading. -/
theorem claim_C8_witness :
    Exporter.Collect (fun _ => none) ⟨true, none, none, none, 1⟩ =
      Exporter.unreachableReading 1 :=
  claim_C8_down_scrape.2 _ _ ⟨rfl, rfl, rfl, rfl⟩

/-- C9: collecting twice against the same unreachable endpoint yields
the identical gauge vector both times; the first invocation leaves the
checker state unchanged, so no accumulated state affects the second
call, and both readings equal the "down, all-unknown" vector (with the
eicar zeros as in the amended C8). -/
theorem claim_C9_collect_idempotent (dp : List Char → Option Int)
    (c : Exporter.ClamDChecker) (env : Exporter.ClamdEnv)
    (h : Exporter.Unreachable env) :
    (Exporter.CollectS dp c env).1 =
      (Exporter.CollectS dp (Exporter.CollectS dp c env).2 env).1 ∧
    (Exporter.CollectS dp c env).2 = c ∧
    (Exporter.CollectS dp c env).1 =
      Exporter.unreachableReading env.scanElapsed :=
  ⟨rfl, rfl, Exporter.Collect_unreachable dp h⟩

/-- Witness for C9: a concrete checker and unreachable environment. -/
theorem claim_C9_witness :
    (Exporter.CollectS (fun _ => none) ⟨"tcp://127.0.0.1:3310".toList⟩
        ⟨true, none, none, none, 1⟩).2 =
      ⟨"tcp://127.0.0.1:3310".toList⟩ :=
  (claim_C9_collect_idempotent (fun _ => none) _ _ ⟨rfl, rfl, rfl, rfl⟩).2.1

/-- C6: the frame-response parser returns the sentinel −1 exactly when
no `ICAP/1.0 <digits>` occurrence exists in the response, and sets the
detected flag to 1 exactly when an `X-Infection-Found: … Threat=…;`
pattern occurs anywhere (independently of the code and the captured
name); on the two concrete end-to-end responses it yields (200, not
detected) and (200, detected). -/
theorem claim_C6_icap_parse :
    (∀ res : List Char,
      ((Icap.parseIcapResult res).2 = 1 ↔ Icap.InfectionPattern res)) ∧
    (∀ res : List Char,
      ((Icap.parseIcapResult res).1 = -1 ↔ ¬ Icap.CodePattern res)) ∧
    Icap.parseIcapResult "ICAP/1.0 200 OK\r\nServer: C-ICAP/0.5.6\r\n\r\n".toList
      = (200, 0) ∧
    Icap.parseIcapResult
      ("ICAP/1.0 200 OK\r\nX-Infection-Found: Type=0; Resolution=2; Threat=Eicar-Test-Signature;\r\n\r\n".toList)
      = (200, 1) := by
  refine ⟨?_, ?_, by decide, by decide⟩
  · intro res
    constructor
    · intro h
      by_cases hf : Icap.infectionFound res
      · exact Icap.infectionFound_sound hf
      · exfalso
        simp [Icap.parseIcapResult, hf] at h
    · intro hp
      simp [Icap.parseIcapResult, Icap.infectionFound_complete hp]
  · intro res
    rcases hf : Icap.findCode res with _ | ds
    · constructor
      · intro _ hp
        have := Icap.findCode_isSome_iff.mpr hp
        rw [hf] at this
        simp at this
      · intro _
        simp [Icap.parseIcapResult, hf]
    · have hpat : Icap.CodePattern res :=
        Icap.findCode_isSome_iff.mp (by rw [hf]; rfl)
      constructor
      · intro h
        exfalso
        simp only [Icap.parseIcapResult, hf] at h
        have hge : (0 : Int) ≤ (Icap.digitsToNat ds : Int) :=
          Int.natCast_nonneg _
        omega
      · intro hnp
        exact absurd hpat hnp

/-- Witness for C6: the infection pattern provably occurs in the
concrete detected response. -/
theorem claim_C6_witness :
    Icap.InfectionPattern
      ("ICAP/1.0 200 OK\r\nX-Infection-Found: Type=0; Resolution=2; Threat=Eicar-Test-Signature;\r\n\r\n".toList) :=
  (claim_C6_icap_parse.1 _).mp (by decide)

/-- C10: `Responses` returns exactly one parsed result per
newline-terminated line, in arrival order: a closed connection with
zero bytes yields the empty sequence, and trailing bytes after the
last newline never become a result. -/
theorem claim_C10_responses :
    Clamd.responses [] = [] ∧
    (∀ (ls : List (List Char)) (trailing : List Char),
      (∀ l ∈ ls, '\n' ∉ l) → '\n' ∉ trailing →
      Clamd.responses (Clamd.joinLines ls ++ trailing) =
        ls.map fun l => Clamd.Result.parse (Clamd.trimRight (l ++ ['\n']))) := by
  refine ⟨Clamd.responses_no_newline (by simp), ?_⟩
  intro ls trailing hls htr
  induction ls with
  | nil =>
    simpa [Clamd.joinLines] using Clamd.responses_no_newline htr
  | cons x xs ih =>
    have hx : '\n' ∉ x := hls x (by simp)
    have hxs : ∀ l ∈ xs, '\n' ∉ l := fun l hl => hls l (by simp [hl])
    simp only [Clamd.joinLines, List.append_assoc, List.cons_append]
    rw [show x ++ ('\n' :: (Clamd.joinLines xs ++ trailing)) =
      x ++ '\n' :: (Clamd.joinLines xs ++ trailing) from rfl]
    rw [Clamd.responses_cons hx]
    simp [ih hxs]

/-- Witness for C10: a two-line response with trailing garbage yields
exactly the two parsed results. -/
theorem claim_C10_witness :
    Clamd.responses ("stream: OK\nfoo: FOUND\npartial".toList) =
      [Clamd.Result.parse (Clamd.trimRight ("stream: OK".toList ++ ['\n'])),
       Clamd.Result.parse (Clamd.trimRight ("foo: FOUND".toList ++ ['\n']))] := by
  have h := claim_C10_responses.2 ["stream: OK".toList, "foo: FOUND".toList]
    "partial".toList (by decide) (by decide)
  simpa [Clamd.joinLines] using h

/-- C1: every parser is total.  `Result.parse` yields a structured
result with one of the four defined statuses for every input line
(malformed content becomes `PARSE ERROR`, never an exception), and the
`Stats` response folding completes without panicking for every sequence
of response lines of well-formed length (each line at least as long as
the prefix offset it is sliced at). -/
theorem claim_C1_parsers_total :
    (∀ line : List Char,
      (Clamd.Result.parse line).Status = Clamd.RES_OK ∨
      (Clamd.Result.parse line).Status = Clamd.RES_FOUND ∨
      (Clamd.Result.parse line).Status = Clamd.RES_ERROR ∨
      (Clamd.Result.parse line).Status = Clamd.RES_PARSE_ERROR) ∧
    (∀ lines : List (List Char), (∀ l ∈ lines, Clamd.wellFormedLen l = true) →
      (Clamd.statsFold lines).isSome = true) := by
  constructor
  · intro line
    unfold Clamd.Result.parse
    rcases hm : Clamd.resMatch line with _ | caps
    · simp
    · obtain ⟨_, hlits⟩ := Clamd.resMatch_sound hm
      rcases hlits with h1 | h1 | h1 <;> simp [h1]
  · intro lines h
    exact Clamd.statsFoldAux_total h Clamd.statsInit

/-- Witness for C1: a concrete stats response folds successfully. -/
theorem claim_C1_witness :
    (Clamd.statsFold ["POOLS: 1".toList,
      "THREADS: live 1 idle 0 max 12 idle-timeout 30".toList,
      "QUEUE: 0 items".toList, "END".toList]).isSome = true :=
  claim_C1_parsers_total.2 _ (by decide)

/-- C2 (code bug evidence): on a response line carrying the optional
`(hash:size)` group, the regex does capture the hash and the size
(groups `vhash`/`vsize`), but the parsed result's `Hash` is empty and
its `Size` is 0 — the switch in `(*Result).parse` matches the group
names `virhash`/`virsize`, which do not occur in the regex. -/
theorem claim_C2_hash_size_dropped :
    Clamd.resMatch
      "eicar.com: Eicar-Test-Signature(69630e4574ec6798239b091cda43dca0:544) FOUND".toList =
      some ⟨"eicar.com".toList,
        some ("Eicar-Test-Signature".toList,
          some ("69630e4574ec6798239b091cda43dca0".toList, "544".toList)),
        "FOUND".toList⟩ ∧
    (Clamd.Result.parse
      "eicar.com: Eicar-Test-Signature(69630e4574ec6798239b091cda43dca0:544) FOUND".toList).Hash
      = [] ∧
    (Clamd.Result.parse
      "eicar.com: Eicar-Test-Signature(69630e4574ec6798239b091cda43dca0:544) FOUND".toList).Size
      = 0 := by
  refine ⟨by decide, ?_, ?_⟩ <;> decide

/-- C3: a line matching the grammar gets exactly the status captured in
the status position (one of `OK`, `FOUND`, `ERROR`); a line whose final
space-delimited token (the status position) is none of the three is
marked `PARSE ERROR` with the diagnostic description; the raw line is
preserved verbatim for every input. -/
theorem claim_C3_status_assignment :
    (∀ l caps, Clamd.resMatch l = some caps →
      (Clamd.Result.parse l).Status = caps.status ∧
      (caps.status = Clamd.RES_OK ∨ caps.status = Clamd.RES_FOUND ∨
        caps.status = Clamd.RES_ERROR)) ∧
    (∀ l : List Char, Clamd.statusToken l ≠ Clamd.RES_OK →
      Clamd.statusToken l ≠ Clamd.RES_FOUND →
      Clamd.statusToken l ≠ Clamd.RES_ERROR →
      (Clamd.Result.parse l).Status = Clamd.RES_PARSE_ERROR ∧
      (Clamd.Result.parse l).Description = "Regex had no matches".toList) ∧
    (∀ l : List Char, (Clamd.Result.parse l).raw = l) := by
  refine ⟨?_, ?_, ?_⟩
  · intro l caps hm
    obtain ⟨_, hlits⟩ := Clamd.resMatch_sound hm
    constructor
    · unfold Clamd.Result.parse
      rw [hm]
    · rcases hlits with h1 | h1 | h1 <;> simp [h1]
  · intro l hOK hFOUND hERROR
    rcases hm : Clamd.resMatch l with _ | caps
    · unfold Clamd.Result.parse
      rw [hm]
      exact ⟨rfl, rfl⟩
    · exfalso
      have ht := Clamd.resMatch_statusToken hm
      obtain ⟨_, hlits⟩ := Clamd.resMatch_sound hm
      rcases hlits with h1 | h1 | h1 <;> rw [← ht] at h1
      · exact hFOUND h1
      · exact hERROR h1
      · exact hOK h1
  · intro l
    unfold Clamd.Result.parse
    rcases hm : Clamd.resMatch l with _ | caps <;> rfl

/-- Witness for C3: a line with `BANANA` in the status position parses
to `PARSE ERROR` with the diagnostic description, and a matched `OK`
line gets status `OK`. -/
theorem claim_C3_witness :
    ((Clamd.Result.parse "/tmp/x: BANANA".toList).Status =
      Clamd.RES_PARSE_ERROR ∧
     (Clamd.Result.parse "/tmp/x: BANANA".toList).Description =
      "Regex had no matches".toList) ∧
    (Clamd.Result.parse "/tmp/x: OK".toList).Status =
      (⟨"/tmp/x".toList, none, "OK".toList⟩ : Clamd.ResCaps).status :=
  ⟨claim_C3_status_assignment.2.1 _ (by decide) (by decide) (by decide),
   (claim_C3_status_assignment.1 _ _ (by decide)).1⟩

/-- C4: a 1024-byte payload passes `ScanBytes`' size check; a payload
of 1025 bytes or more fails closed with the sizing error before any
bytes are written to the connection; `InStream.Write` (constructed with
`chSize = 1024`) enforces the same bound, writing nothing on
violation. -/
theorem claim_C4_chunk_size_bound :
    (∀ b : List Nat, b.length = 1024 → (Clamd.scanBytesRun b).2 = none) ∧
    (∀ b : List Nat, 1025 ≤ b.length →
      Clamd.scanBytesRun b = ([], some "chunk size < 1024 bytes".toList)) ∧
    (∀ b : List Nat, b.length ≤ 1024 →
      (Clamd.NewInStream.Write b).1 = none ∧
      (Clamd.NewInStream.Write b).2 = Clamd.chunkWrites b) ∧
    (∀ b : List Nat, 1025 ≤ b.length →
      (Clamd.NewInStream.Write b).1.isSome = true ∧
      (Clamd.NewInStream.Write b).2 = []) := by
  refine ⟨?_, ?_, ?_, ?_⟩
  · intro b hb
    simp [Clamd.scanBytesRun, hb]
  · intro b hb
    have hgt : b.length > 1024 := by omega
    simp [Clamd.scanBytesRun, hgt]
  · intro b hb
    have hng : ¬(b.length > 1024) := by omega
    simp [Clamd.InStream.Write, Clamd.NewInStream, hng]
  · intro b hb
    have hgt : b.length > 1024 := by omega
    simp [Clamd.InStream.Write, Clamd.NewInStream, hgt]

/-- Witness for C4: concrete payloads of 1024 and 1025 zero bytes. -/
theorem claim_C4_witness :
    (Clamd.scanBytesRun (List.replicate 1024 0)).2 = none ∧
    Clamd.scanBytesRun (List.replicate 1025 0) =
      ([], some "chunk size < 1024 bytes".toList) :=
  ⟨claim_C4_chunk_size_bound.1 _ (by rw [List.length_replicate]),
   claim_C4_chunk_size_bound.2.1 _ (by rw [List.length_replicate])⟩

/-- C5 (counterexample): the framed version query is the bytes
`nVERSION\n`; its first byte is the ASCII letter `'n'` (0x6E), which
lies in the printable range 0x20–0x7E — the marker byte is printable,
refuting the claim that the framing starts with a non-printable
marker byte. -/
theorem claim_C5_counterexample :
    Clamd.commandBytes "VERSION".toList = "nVERSION\n".toList ∧
    ("nVERSION\n".toList.head? = some 'n' ∧
      32 ≤ ('n').toNat ∧ ('n').toNat ≤ 126) := by
  refine ⟨by decide, by decide, by decide, by decide⟩

/-- C5 (amended): for every command string the framing writes a single
marker byte — the printable ASCII letter `'n'`, the daemon's
newline-delimiter selector — followed by the command text and a
trailing newline. -/
theorem claim_C5_framing (cmd : List Char) :
    Clamd.commandBytes cmd = 'n' :: (cmd ++ ['\n']) := rfl


